import Mathlib

/-!
Verification of the demark markdown parser (src/index.js).

The JavaScript source is shallowly embedded: strings are `List Char`
(wrapped into `String` at the interfaces), regex-based rewrite passes are
explicit scanners that mirror the backtracking behaviour of the concrete
patterns in the source, and JS numbers produced by the frontmatter value
coercion are modelled as exact extended rationals (`JSNum`), which is
faithful for the coercion decisions and the small literal values the
claims are about (IEEE-754 rounding of large mantissas is not modelled).
-/

namespace Demark

/-! ### Character classes used by the JS regexes and string builtins -/

/-- The set matched by the regex class backslash-s and removed by
`String.prototype.trim`: WhiteSpace and LineTerminator code points. -/
def isJsWs (c : Char) : Bool :=
  c.toNat == 32 || c.toNat == 9 || c.toNat == 10 || c.toNat == 11 ||
  c.toNat == 12 || c.toNat == 13 || c.toNat == 160 || c.toNat == 0x1680 ||
  (0x2000 ≤ c.toNat && c.toNat ≤ 0x200A) || c.toNat == 0x2028 ||
  c.toNat == 0x2029 || c.toNat == 0x202F || c.toNat == 0x205F ||
  c.toNat == 0x3000 || c.toNat == 0xFEFF

/-- LineTerminator code points: the characters NOT matched by regex `.`
and the positions recognised by multiline anchors. -/
def isLineTerm (c : Char) : Bool :=
  c.toNat == 10 || c.toNat == 13 || c.toNat == 0x2028 || c.toNat == 0x2029

/-- The regex class backslash-w: ASCII letters, digits and underscore. -/
def isWordChar (c : Char) : Bool :=
  (97 ≤ c.toNat && c.toNat ≤ 122) || (65 ≤ c.toNat && c.toNat ≤ 90) ||
  (48 ≤ c.toNat && c.toNat ≤ 57) || c.toNat == 95

/-- ASCII decimal digit. -/
def isDigitC (c : Char) : Bool :=
  48 ≤ c.toNat && c.toNat ≤ 57

/-- Lowercase ASCII letter or digit (the characters a slug is built from). -/
def isLowerAlnum (c : Char) : Bool :=
  (97 ≤ c.toNat && c.toNat ≤ 122) || (48 ≤ c.toNat && c.toNat ≤ 57)

/-- The double quote character. -/
def dq : Char := Char.ofNat 34

/-- The single quote character. -/
def sq : Char := Char.ofNat 39

/-- The backtick character. -/
def bt : Char := Char.ofNat 96

/-- Remove a maximal trailing run of characters satisfying `p`
(the right half of `String.prototype.trim`). -/
def dropEndWhile (p : Char → Bool) : List Char → List Char
  | [] => []
  | c :: cs =>
    let r := dropEndWhile p cs
    if r = [] && p c then [] else c :: r

/-- `String.prototype.trim` on character lists. -/
def jsTrim (cs : List Char) : List Char :=
  dropEndWhile isJsWs (cs.dropWhile isJsWs)

/-- `String.prototype.trim`. -/
def jsTrimS (s : String) : String := ⟨jsTrim s.data⟩

/-! ### createSlug (src/index.js lines 301-310) -/

/-- Character class `[ backslash-s _ - ]` used by the run-collapsing
step (underscore is 95, hyphen is 45). -/
def isSep (c : Char) : Bool := isJsWs c || c.toNat == 95 || c.toNat == 45

/-- `toLowerCase` restricted to ASCII (all non-ASCII letters are removed
by the following `[^ word ws -]` filter, so this is faithful for the
slug pipeline). -/
def jsToLower (c : Char) : Char :=
  if 65 ≤ c.toNat && c.toNat ≤ 90 then Char.ofNat (c.toNat + 32) else c

/-- The character class kept by `.replace(/[^ word ws -]/g, "")`. -/
def keepC (c : Char) : Bool := isWordChar c || isJsWs c || c.toNat == 45

/-- `.replace(/[^ word ws -]/g, "")`: keep word chars, whitespace, hyphen. -/
def removeSpecial (cs : List Char) : List Char :=
  cs.filter keepC

/-- `.replace(/[ ws _ -]+/g, "-")` as a state machine: the flag records
being inside a separator run (whose first character already emitted the
hyphen). -/
def collapseAux : Bool → List Char → List Char
  | _, [] => []
  | inSep, c :: cs =>
    if isSep c then
      if inSep then collapseAux true cs
      else '-' :: collapseAux true cs
    else c :: collapseAux false cs

/-- `.replace(/[ ws _ -]+/g, "-")`: collapse each maximal run of
whitespace, underscore or hyphen into a single hyphen. -/
def collapseSeps (cs : List Char) : List Char := collapseAux false cs

/-- Hyphen test. -/
def isHy (c : Char) : Bool := c.toNat == 45

/-- `.replace(/^-+|-+$/g, "")`: strip the leading and the trailing
hyphen run. -/
def stripHy (cs : List Char) : List Char :=
  dropEndWhile isHy (cs.dropWhile isHy)

/-- The slug pipeline of `createSlug` applied to a non-empty input:
lowercase, trim, remove special characters, collapse separator runs,
strip boundary hyphens (src/index.js lines 304-309). -/
def slugPipeline (cs : List Char) : List Char :=
  stripHy (collapseSeps (removeSpecial (jsTrim (cs.map jsToLower))))

/-- `createSlug` (src/index.js lines 301-310): falsy (empty) input gives
the empty string, otherwise the slug pipeline runs. -/
def createSlug (s : String) : String :=
  if s = "" then "" else ⟨slugPipeline s.data⟩

/-! ### JS numbers, `Number(string)` and `parseFloat(string)`

The frontmatter coercion (src/index.js line 285) evaluates
`!isNaN(value) && !isNaN(parseFloat(value))` and stores
`parseFloat(value)`.  `isNaN` coerces its argument with `Number`.  Both
builtins are modelled below; NaN is `none`, other results are exact
extended rationals. -/

/-- A non-NaN JS number: a finite value (kept exact as a rational) or a
signed infinity. -/
inductive JSNum where
  | finite (q : Rat)
  | inf
  | neginf
deriving DecidableEq

/-- Value of a list of decimal digits. -/
def digitsVal (ds : List Char) : Nat :=
  ds.foldl (fun a c => a * 10 + (c.toNat - 48)) 0

/-- The exact rational with the given sign and digits, scaled by a
signed power of ten (built with `mkRat` so that it evaluates). -/
def decValue (neg : Bool) (m : Nat) (e : Int) : Rat :=
  let sgn : Int := if neg then -1 else 1
  if 0 ≤ e then mkRat (sgn * Int.ofNat m * Int.ofNat (10 ^ e.toNat)) 1
  else mkRat (sgn * Int.ofNat m) (10 ^ (-e).toNat)

/-- Longest-prefix parse of a StrDecimalLiteral:
optional sign, then `Infinity`, or decimal digits with optional fraction
and optional exponent.  Returns the value and the unconsumed suffix;
`none` when no valid prefix exists. -/
def decimalPrefix (cs : List Char) : Option (JSNum × List Char) :=
  let sr : Bool × List Char :=
    match cs with
    | '-' :: r => (true, r)
    | '+' :: r => (false, r)
    | _ => (false, cs)
  let neg := sr.1
  let r0 := sr.2
  if List.isPrefixOf "Infinity".data r0 then
    some (if neg then JSNum.neginf else JSNum.inf, r0.drop 8)
  else
    let d1 := r0.takeWhile isDigitC
    let r1 := r0.drop d1.length
    let fr : List Char × List Char :=
      match r1 with
      | '.' :: r =>
        if d1 = [] && r.takeWhile isDigitC = [] then ([], r1)
        else (r.takeWhile isDigitC, r.drop (r.takeWhile isDigitC).length)
      | _ => ([], r1)
    let d2 := fr.1
    let r2 := fr.2
    if d1 = [] && d2 = [] then none
    else
      let er : Int × List Char :=
        match r2 with
        | c :: r =>
          if c == 'e' || c == 'E' then
            let se : Int × List Char :=
              match r with
              | '-' :: t => (-1, t)
              | '+' :: t => (1, t)
              | _ => (1, r)
            let ed := se.2.takeWhile isDigitC
            if ed = [] then (0, r2)
            else (se.1 * Int.ofNat (digitsVal ed), se.2.drop ed.length)
          else (0, r2)
        | [] => (0, r2)
      some (JSNum.finite (decValue neg (digitsVal (d1 ++ d2)) (er.1 - d2.length)), er.2)

/-- `parseFloat(string)`: skip leading whitespace, then take the longest
valid StrDecimalLiteral prefix; NaN (`none`) when there is none. -/
def jsParseFloat (s : String) : Option JSNum :=
  (decimalPrefix (s.data.dropWhile isJsWs)).map (·.1)

/-- Hexadecimal digit. -/
def isHexDigit (c : Char) : Bool :=
  let n := c.toNat
  (48 ≤ n && n ≤ 57) || (97 ≤ n && n ≤ 102) || (65 ≤ n && n ≤ 70)

/-- Octal digit. -/
def isOctDigit (c : Char) : Bool :=
  let n := c.toNat
  48 ≤ n && n ≤ 55

/-- Binary digit. -/
def isBinDigit (c : Char) : Bool :=
  let n := c.toNat
  n == 48 || n == 49

/-- Value of a digit character in any radix up to 16. -/
def hexDigitVal (c : Char) : Nat :=
  let n := c.toNat
  if 48 ≤ n && n ≤ 57 then n - 48
  else if 97 ≤ n && n ≤ 102 then n - 87
  else if 65 ≤ n && n ≤ 70 then n - 55
  else 0

/-- Value of a digit list in the given radix. -/
def radixVal (r : Nat) (ds : List Char) : Nat :=
  ds.foldl (fun a c => a * r + hexDigitVal c) 0

/-- Full-string decimal parse: the whole input must be consumed. -/
def fullDecimal (cs : List Char) : Option JSNum :=
  match decimalPrefix cs with
  | some (v, []) => some v
  | _ => none

/-- `Number(string)` (used through `isNaN(value)` in the source):
trim, empty is 0, a hex/octal/binary NonDecimalIntegerLiteral, or a
complete StrDecimalLiteral; otherwise NaN (`none`). -/
def jsNumber (s : String) : Option JSNum :=
  let cs := jsTrim s.data
  if cs = [] then some (JSNum.finite 0)
  else
    match cs with
    | '0' :: x :: ds =>
      if (x == 'x' || x == 'X') && !ds.isEmpty && ds.all isHexDigit then
        some (JSNum.finite (mkRat (Int.ofNat (radixVal 16 ds)) 1))
      else if (x == 'o' || x == 'O') && !ds.isEmpty && ds.all isOctDigit then
        some (JSNum.finite (mkRat (Int.ofNat (radixVal 8 ds)) 1))
      else if (x == 'b' || x == 'B') && !ds.isEmpty && ds.all isBinDigit then
        some (JSNum.finite (mkRat (Int.ofNat (radixVal 2 ds)) 1))
      else fullDecimal cs
    | _ => fullDecimal cs

/-! ### Frontmatter value coercion and `_parseFrontmatter`
(src/index.js lines 244-293) -/

/-- A frontmatter value: string, number, boolean, or array of strings. -/
inductive FMValue where
  | str (s : String)
  | num (n : JSNum)
  | boolV (b : Bool)
  | arr (items : List String)
deriving DecidableEq

/-- `value.startsWith(c)` for a one-character prefix. -/
def startsWithC (c : Char) (s : String) : Bool := s.data.head? == some c

/-- `value.endsWith(c)` for a one-character suffix. -/
def endsWithC (c : Char) (s : String) : Bool := s.data.getLast? == some c

/-- The quote test on lines 275-278: wrapped in matching double or
single quotes (a single quote character passes the test, as in JS). -/
def isQuoted (s : String) : Bool :=
  (startsWithC dq s && endsWithC dq s) || (startsWithC sq s && endsWithC sq s)

/-- `value.slice(1, -1)`. -/
def slice1m1 (s : String) : String := ⟨(s.data.drop 1).dropLast⟩

/-- The non-array branch of the value coercion (src/index.js lines
273-287): unquote if quoted, then the boolean test, then the
`!isNaN(value) && !isNaN(parseFloat(value))` number test, storing
`parseFloat(value)` on success, else the string itself. -/
def coerceScalar (raw : String) : FMValue :=
  let v := if isQuoted raw then slice1m1 raw else raw
  if v = "true" then FMValue.boolV true
  else if v = "false" then FMValue.boolV false
  else
    match jsNumber v, jsParseFloat v with
    | some _, some x => FMValue.num x
    | _, _ => FMValue.str v

/-- One array item: trimmed, then unquoted when wrapped in matching
quotes (src/index.js lines 259-268). -/
def arrItem (item : String) : String :=
  let t := jsTrimS item
  if isQuoted t then slice1m1 t else t

/-- `String.prototype.split` with a one-character separator. -/
def splitOnC (sep : Char) : List Char → List (List Char)
  | [] => [[]]
  | c :: cs =>
    if c == sep then [] :: splitOnC sep cs
    else
      match splitOnC sep cs with
      | h :: t => (c :: h) :: t
      | [] => [[c]]

/-- The whole value coercion: the `[...]` branch (lines 256-272) splits
on commas into strings, anything else goes through `coerceScalar`. -/
def coerceValue (raw : String) : FMValue :=
  if startsWithC '[' raw && endsWithC ']' raw then
    let inner := jsTrimS (slice1m1 raw)
    if inner = "" then FMValue.arr []
    else FMValue.arr ((splitOnC ',' inner.data).map fun l => arrItem ⟨l⟩)
  else coerceScalar raw

/-- `indexOf` for a single character. -/
def firstIdx (c : Char) : List Char → Option Nat
  | [] => none
  | d :: r => if d == c then some 0 else (firstIdx c r).map (· + 1)

/-- `frontmatter[key] = value` on a key-ordered association list:
an existing key keeps its position, a new key is appended. -/
def setKey (k : String) (v : FMValue) : List (String × FMValue) → List (String × FMValue)
  | [] => [(k, v)]
  | (k0, v0) :: rest => if k0 = k then (k, v) :: rest else (k0, v0) :: setKey k v rest

/-- One line of the frontmatter body: skipped without a colon, otherwise
key and raw value split at the first colon, both trimmed (src/index.js
lines 248-290). -/
def parseFMLine (m : List (String × FMValue)) (line : String) : List (String × FMValue) :=
  match firstIdx ':' line.data with
  | none => m
  | some i =>
    let key := jsTrimS ⟨line.data.take i⟩
    let raw := jsTrimS ⟨line.data.drop (i + 1)⟩
    setKey key (coerceValue raw) m

/-- `_parseFrontmatter` (src/index.js lines 244-293): trim the captured
block, split on newlines, process each line in order. -/
def _parseFrontmatter (content : String) : List (String × FMValue) :=
  ((splitOnC '\n' (jsTrim content.data)).map fun l => (⟨l⟩ : String)).foldl parseFMLine []

/-! ### The frontmatter block pattern (src/index.js line 12)

The regex is anchored at the start: three hyphens, optional CR, LF,
a lazily captured body, then optional CR, LF, three hyphens, and an
optional CR and optional LF.  `fmClose` finds the lazy (leftmost)
closing position. -/

/-- Consume the opening fence `---` followed by an optional CR and a LF. -/
def fmOpen (cs : List Char) : Option (List Char) :=
  match cs with
  | '-' :: '-' :: '-' :: '\r' :: '\n' :: r => some r
  | '-' :: '-' :: '-' :: '\n' :: r => some r
  | _ => none

/-- Least index where an optional-CR, LF, `---` closing fence starts,
with the number of characters it consumes. -/
def fmClose : List Char → Option (Nat × Nat)
  | [] => none
  | c :: rest =>
    if c == '\r' && List.isPrefixOf ("\n---").data rest then some (0, 5)
    else if c == '\n' && List.isPrefixOf ("---").data rest then some (0, 4)
    else (fmClose rest).map fun p => (p.1 + 1, p.2)

/-- Match of `patterns.frontmatter` against the start of the document:
returns the captured body and the text after the whole match (the
trailing optional CR and optional LF are consumed greedily). -/
def frontmatterMatch (cs : List Char) : Option (List Char × List Char) :=
  match fmOpen cs with
  | none => none
  | some body =>
    match fmClose body with
    | none => none
    | some (i, n) =>
      let after := body.drop (i + n)
      let a1 := if after.head? == some '\r' then after.tail else after
      let a2 := if a1.head? == some '\n' then a1.tail else a1
      some (body.take i, a2)

/-- String-level view of `frontmatterMatch`. -/
def fmMatchS (s : String) : Option (String × String) :=
  (frontmatterMatch s.data).map fun p => (⟨p.1⟩, ⟨p.2⟩)

/-! ### Transformation pipeline (src/index.js lines 76-220)

Each global-replace pass is a left-to-right scanner: at each position it
attempts the pattern; on success it emits the replacement and resumes
after the match, on failure it emits one character and moves on.  The
fuel argument only bounds the recursion and is always called with more
fuel than characters. -/

/-- Generic single-pattern global replace. -/
def scanRepl (try1 : List Char → Option (List Char × List Char)) :
    Nat → List Char → List Char
  | 0, cs => cs
  | _ + 1, [] => []
  | f + 1, c :: cs =>
    match try1 (c :: cs) with
    | some (repl, rest) => repl ++ scanRepl try1 f rest
    | none => c :: scanRepl try1 f cs

/-- Backtracking of the greedy whitespace run in `#{1,6}\s+(.+)`: the
largest count `k` of whitespace characters (at most the run length, at
least 1) such that the character right after them exists and is not a
line terminator (so that `.` can match it). -/
def pickK (r : List Char) : Nat → Option Nat
  | 0 => none
  | k + 1 =>
    match r.get? (k + 1) with
    | some c => if isLineTerm c then pickK r k else some (k + 1)
    | none => pickK r k

/-- Attempt of `patterns.heading` at a line start: 1-6 hashes, at least
one whitespace character (newlines included, per JS regex whitespace),
then the greedy non-terminator content, rendered as a heading tag with
the content trimmed (src/index.js lines 118-123). -/
def tryHeading (cs : List Char) : Option (List Char × List Char) :=
  let t := (cs.takeWhile (· == '#')).length
  if 1 ≤ t && t ≤ 6 then
    let r := cs.drop t
    let w := (r.takeWhile isJsWs).length
    match pickK r w with
    | none => none
    | some k =>
      let content := (r.drop k).takeWhile fun c => !isLineTerm c
      some (("<h" ++ Nat.repr t ++ ">").data ++ jsTrim content ++
              ("</h" ++ Nat.repr t ++ ">").data,
            r.drop (k + content.length))
  else none

/-- The multiline heading pass: the pattern is only tried where the `^`
anchor holds (input start or right after a line terminator). -/
def headingsAux : Nat → Bool → List Char → List Char
  | 0, _, cs => cs
  | _ + 1, _, [] => []
  | f + 1, atStart, c :: cs =>
    if atStart then
      match tryHeading (c :: cs) with
      | some (repl, rest) => repl ++ headingsAux f false rest
      | none => c :: headingsAux f (isLineTerm c) cs
    else c :: headingsAux f (isLineTerm c) cs

/-- `_parseHeadings` (src/index.js lines 118-123). -/
def _parseHeadings (s : String) : String :=
  ⟨headingsAux (s.data.length + 1) true s.data⟩

/-- Attempt of `patterns.image` at a position: bang, bracketed possibly
empty alt text, parenthesised non-empty source. -/
def tryImage (cs : List Char) : Option (List Char × List Char) :=
  match cs with
  | '!' :: '[' :: r =>
    let alt := r.takeWhile (· != ']')
    if alt.length < r.length then
      match r.drop (alt.length + 1) with
      | '(' :: r3 =>
        let src := r3.takeWhile (· != ')')
        if !src.isEmpty && src.length < r3.length then
          some ("<img src=\"".data ++ src ++ "\" alt=\"".data ++ alt ++
                  "\" />".data,
                r3.drop (src.length + 1))
        else none
      | _ => none
    else none
  | _ => none

/-- `_parseImages` (src/index.js lines 157-159). -/
def _parseImages (s : String) : String :=
  ⟨scanRepl tryImage (s.data.length + 1) s.data⟩

/-- Attempt of `patterns.link` at a position: bracketed non-empty text,
parenthesised non-empty url. -/
def tryLink (cs : List Char) : Option (List Char × List Char) :=
  match cs with
  | '[' :: r =>
    let txt := r.takeWhile (· != ']')
    if !txt.isEmpty && txt.length < r.length then
      match r.drop (txt.length + 1) with
      | '(' :: r3 =>
        let url := r3.takeWhile (· != ')')
        if !url.isEmpty && url.length < r3.length then
          some ("<a href=\"".data ++ url ++ "\">".data ++ txt ++
                  "</a>".data,
                r3.drop (url.length + 1))
        else none
      | _ => none
    else none
  | _ => none

/-- `_parseLinks` (src/index.js lines 148-150). -/
def _parseLinks (s : String) : String :=
  ⟨scanRepl tryLink (s.data.length + 1) s.data⟩

/-- `_escapeHtml` (src/index.js lines 227-236) on one character. -/
def escChar (c : Char) : List Char :=
  if c == '&' then "&amp;".data
  else if c == '<' then "&lt;".data
  else if c == '>' then "&gt;".data
  else if c == dq then "&quot;".data
  else if c == sq then "&#39;".data
  else [c]

/-- `_escapeHtml` (src/index.js lines 227-236). -/
def escapeHtml : List Char → List Char
  | [] => []
  | c :: cs => escChar c ++ escapeHtml cs

/-- Three backticks at the head. -/
def fenceAt (cs : List Char) : Bool :=
  match cs with
  | c1 :: c2 :: c3 :: _ => c1 == bt && c2 == bt && c3 == bt
  | _ => false

/-- Least index where the lazy body of a fenced block can stop: an
optional LF followed by three backticks; returns the index and the
consumed length (4 with the LF, 3 without). -/
def fenceFind : List Char → Option (Nat × Nat)
  | [] => none
  | c :: rest =>
    if c == '\n' && fenceAt rest then some (0, 4)
    else if fenceAt (c :: rest) then some (0, 3)
    else (fenceFind rest).map fun p => (p.1 + 1, p.2)

/-- Attempt of `patterns.codeBlock` at a position: opening fence, an
optional greedy word-character language tag, an optional LF, the lazy
body up to the closing fence; the body is trimmed and HTML-escaped and
the class attribute appears only with a language tag (src/index.js
lines 166-173). -/
def tryCodeBlock (cs : List Char) : Option (List Char × List Char) :=
  if fenceAt cs then
    let r := cs.drop 3
    let lang := r.takeWhile isWordChar
    let r2 := r.drop lang.length
    let r3 := if r2.head? == some '\n' then r2.tail else r2
    match fenceFind r3 with
    | some (j, n) =>
      let cls := if lang.isEmpty then [] else
        " class=\"language-".data ++ lang ++ [dq]
      some ("<pre><code".data ++ cls ++ ['>'] ++
              escapeHtml (jsTrim (r3.take j)) ++ "</code></pre>".data,
            r3.drop (j + n))
    | none => none
  else none

/-- `_parseCodeBlocks` (src/index.js lines 166-173). -/
def _parseCodeBlocks (s : String) : String :=
  ⟨scanRepl tryCodeBlock (s.data.length + 1) s.data⟩

/-- Attempt of `patterns.inlineCode` at a position: backtick, non-empty
backtick-free content, backtick; the content is NOT escaped
(src/index.js lines 180-182). -/
def tryInline (cs : List Char) : Option (List Char × List Char) :=
  match cs with
  | c :: r =>
    if c == bt then
      let inner := r.takeWhile (· != bt)
      if !inner.isEmpty && inner.length < r.length then
        some ("<code>".data ++ inner ++ "</code>".data,
              r.drop (inner.length + 1))
      else none
    else none
  | [] => none

/-- `_parseInlineCode` (src/index.js lines 180-182). -/
def _parseInlineCode (s : String) : String :=
  ⟨scanRepl tryInline (s.data.length + 1) s.data⟩

/-- Least index where a lazy `(.*?)` stops before a double star; fails
on a line terminator, which `.` cannot cross. -/
def boldClose : List Char → Option Nat
  | [] => none
  | c :: rest =>
    if c == '*' && rest.head? == some '*' then some 0
    else if isLineTerm c then none
    else (boldClose rest).map (· + 1)

/-- Attempt of `patterns.bold` at a position. -/
def tryBold (cs : List Char) : Option (List Char × List Char) :=
  match cs with
  | c1 :: c2 :: r =>
    if c1 == '*' && c2 == '*' then
      match boldClose r with
      | some j =>
        some ("<strong>".data ++ r.take j ++ "</strong>".data,
              r.drop (j + 2))
      | none => none
    else none
  | _ => none

/-- `_parseBold` (src/index.js lines 130-132). -/
def _parseBold (s : String) : String :=
  ⟨scanRepl tryBold (s.data.length + 1) s.data⟩

/-- Least index of an underscore reachable without crossing a line
terminator. -/
def italClose : List Char → Option Nat
  | [] => none
  | c :: rest =>
    if c == '_' then some 0
    else if isLineTerm c then none
    else (italClose rest).map (· + 1)

/-- Attempt of `patterns.italic` at a position. -/
def tryItalic (cs : List Char) : Option (List Char × List Char) :=
  match cs with
  | c :: r =>
    if c == '_' then
      (italClose r).map fun j =>
        ("<em>".data ++ r.take j ++ "</em>".data, r.drop (j + 1))
    else none
  | [] => none

/-- `_parseItalic` (src/index.js lines 139-141). -/
def _parseItalic (s : String) : String :=
  ⟨scanRepl tryItalic (s.data.length + 1) s.data⟩

/-- The multiline horizontal-rule pass `^---+$`: at a line start, a
maximal run of at least three hyphens whose following character is the
input end or a line terminator (src/index.js lines 189-191). -/
def hrAux : Nat → Bool → List Char → List Char
  | 0, _, cs => cs
  | _ + 1, _, [] => []
  | f + 1, atStart, c :: cs =>
    let t := ((c :: cs).takeWhile (· == '-')).length
    let rest := (c :: cs).drop t
    if atStart && 3 ≤ t && rest.head?.all isLineTerm then
      "<hr />".data ++ hrAux f false rest
    else c :: hrAux f (isLineTerm c) cs

/-- `_parseHorizontalRules` (src/index.js lines 189-191). -/
def _parseHorizontalRules (s : String) : String :=
  ⟨hrAux (s.data.length + 1) true s.data⟩

/-- Largest index below the bound holding a LF (the backtracked end of
the greedy inner whitespace of the blank-line separator). -/
def lastNl (rest : List Char) : Nat → Option Nat
  | 0 => none
  | p + 1 => if rest.get? p == some '\n' then some p else lastNl rest p

/-- Leftmost match of the separator `\n\s*\n` used by the paragraph
split: a LF, a greedy whitespace run backtracked to its last LF.
Returns the start index and the match length. -/
def findBlank : List Char → Option (Nat × Nat)
  | [] => none
  | c :: rest =>
    if c == '\n' then
      let u := (rest.takeWhile isJsWs).length
      match lastNl rest u with
      | some p => some (0, p + 2)
      | none => (findBlank rest).map fun q => (q.1 + 1, q.2)
    else (findBlank rest).map fun q => (q.1 + 1, q.2)

/-- `text.split` on the blank-line separator. -/
def splitBlanks : Nat → List Char → List (List Char)
  | 0, cs => [cs]
  | f + 1, cs =>
    match findBlank cs with
    | none => [cs]
    | some (i, n) => cs.take i :: splitBlanks f (cs.drop (i + n))

/-- One paragraph block: trimmed; dropped when empty; left alone when it
already looks like an HTML element (starts with < and ends with >);
otherwise wrapped in a paragraph tag (src/index.js lines 204-217). -/
def wrapBlock (b : List Char) : List Char :=
  let t := jsTrim b
  if t.isEmpty then []
  else if t.head? == some '<' && t.getLast? == some '>' then t
  else "<p>".data ++ t ++ "</p>".data

/-- `_parseParagraphs` (src/index.js lines 199-220). -/
def _parseParagraphs (s : String) : String :=
  let blocks := splitBlanks (s.data.length + 1) s.data
  ⟨List.intercalate "\n\n".data ((blocks.map wrapBlock).filter (!·.isEmpty))⟩

/-- `parse` (src/index.js lines 76-111) on an actual string: falsy
(empty) input gives the empty string, otherwise the nine passes run in
their fixed order and the result is trimmed. -/
def parse (s : String) : String :=
  if s = "" then ""
  else jsTrimS (_parseParagraphs (_parseHorizontalRules (_parseItalic
    (_parseBold (_parseInlineCode (_parseCodeBlocks (_parseLinks
      (_parseImages (_parseHeadings s)))))))))

/-! ### Document assembly (src/index.js lines 40-69, 313-345) -/

/-- The result of `parseDocument`. -/
structure Doc where
  frontmatter : List (String × FMValue)
  content : String
  rawContent : String
deriving DecidableEq

/-- `parseDocument` on an actual non-empty string: extract and parse the
frontmatter block when the pattern matches, strip it and trim the
remainder, then render the remainder (src/index.js lines 49-68). -/
def parseDocumentStr (s : String) : Doc :=
  match frontmatterMatch s.data with
  | none => { frontmatter := [], content := parse s, rawContent := s }
  | some (cap, rest) =>
    let c := jsTrimS ⟨rest⟩
    { frontmatter := _parseFrontmatter ⟨cap⟩, content := parse c, rawContent := c }

/-- A JavaScript value as far as the entry-point guards can tell them
apart: a string or one of the non-string shapes. -/
inductive JSValue where
  | str (s : String)
  | nullV
  | undefV
  | numV (q : Rat)
  | boolV (b : Bool)
deriving DecidableEq

/-- `typeof v === "string"`. -/
def JSValue.isString : JSValue → Bool
  | .str _ => true
  | _ => false

/-- The `parse` entry point (src/index.js lines 76-79, 321-323): the
guard `!markdown || typeof markdown !== "string"` maps every non-string
and the empty string to the empty result. -/
def parseJS : JSValue → String
  | .str s => parse s
  | _ => ""

/-- The `parseDocument` entry point (src/index.js lines 40-47, 331-333):
the same guard maps every non-string and the empty string to the empty
document. -/
def parseDocumentJS : JSValue → Doc
  | .str s => if s = "" then ⟨[], "", ""⟩ else parseDocumentStr s
  | _ => ⟨[], "", ""⟩

/-! ### Slug shape lemmas

`createSlug` output consists of lowercase letters, digits and single
interior hyphens; such strings are fixed points of the slug pipeline.
This yields idempotence. -/

/-- A character a finished slug may contain. -/
def slugChar (c : Char) : Bool := isLowerAlnum c || c.toNat == 45

/-- No two adjacent hyphens. -/
def noDH : List Char → Prop
  | [] => True
  | [_] => True
  | a :: b :: r => ¬(a.toNat = 45 ∧ b.toNat = 45) ∧ noDH (b :: r)

/-- Shape of a finished slug: slug characters only, no double hyphen,
and no hyphen at either boundary. -/
def goodSlug (cs : List Char) : Prop :=
  (∀ c ∈ cs, slugChar c = true) ∧ noDH cs ∧
  (∀ c, cs.head? = some c → c.toNat ≠ 45) ∧
  (∀ c, cs.getLast? = some c → c.toNat ≠ 45)

theorem char_eq_of_toNat {c d : Char} (h : c.toNat = d.toNat) : c = d :=
  Char.ext (UInt32.toNat.inj h)

theorem toLower_not_upper (c : Char) :
    ¬(65 ≤ (jsToLower c).toNat ∧ (jsToLower c).toNat ≤ 90) := by
  unfold jsToLower
  by_cases h : (65 ≤ c.toNat && c.toNat ≤ 90) = true
  · rw [if_pos h]
    simp only [Bool.and_eq_true, decide_eq_true_eq] at h
    have hv : (Char.ofNat (c.toNat + 32)).toNat = c.toNat + 32 := by
      unfold Char.ofNat
      rw [dif_pos (Or.inl (by omega : c.toNat + 32 < 0xD800))]
      rfl
    rw [hv]
    omega
  · rw [if_neg h]
    simp only [Bool.and_eq_true, decide_eq_true_eq] at h
    omega

theorem slug_toLower_id {c : Char} (h : slugChar c = true) : jsToLower c = c := by
  simp only [slugChar, isLowerAlnum, Bool.or_eq_true, Bool.and_eq_true,
    decide_eq_true_eq, beq_iff_eq] at h
  unfold jsToLower
  rw [if_neg]
  intro hc
  simp only [Bool.and_eq_true, decide_eq_true_eq] at hc
  omega

theorem slug_not_ws {c : Char} (h : slugChar c = true) : isJsWs c = false := by
  simp only [slugChar, isLowerAlnum, Bool.or_eq_true, Bool.and_eq_true,
    decide_eq_true_eq, beq_iff_eq] at h
  rw [Bool.eq_false_iff]
  intro hs
  simp only [isJsWs, Bool.or_eq_true, Bool.and_eq_true, decide_eq_true_eq,
    beq_iff_eq] at hs
  omega

theorem slug_keep {c : Char} (h : slugChar c = true) : keepC c = true := by
  simp only [slugChar, isLowerAlnum, Bool.or_eq_true, Bool.and_eq_true,
    decide_eq_true_eq, beq_iff_eq] at h
  simp only [keepC, isWordChar, isJsWs, Bool.or_eq_true, Bool.and_eq_true,
    decide_eq_true_eq, beq_iff_eq]
  omega

theorem lower_not_sep {c : Char} (h : isLowerAlnum c = true) : isSep c = false := by
  simp only [isLowerAlnum, Bool.or_eq_true, Bool.and_eq_true, decide_eq_true_eq] at h
  rw [Bool.eq_false_iff]
  intro hs
  simp only [isSep, isJsWs, Bool.or_eq_true, Bool.and_eq_true, decide_eq_true_eq,
    beq_iff_eq] at hs
  omega

theorem sep_of_45 {c : Char} (h : c.toNat = 45) : isSep c = true := by
  simp [isSep, h]

theorem keep_notUpper_cases {c : Char} (hk : keepC c = true)
    (hu : ¬(65 ≤ c.toNat ∧ c.toNat ≤ 90)) :
    isLowerAlnum c = true ∨ isSep c = true := by
  simp only [keepC, isWordChar, isJsWs, Bool.or_eq_true, Bool.and_eq_true,
    decide_eq_true_eq, beq_iff_eq] at hk
  simp only [isLowerAlnum, isSep, isJsWs, Bool.or_eq_true, Bool.and_eq_true,
    decide_eq_true_eq, beq_iff_eq]
  omega

theorem notSep_notHy {c : Char} (h : isSep c = false) : c.toNat ≠ 45 :=
  fun h45 => by rw [sep_of_45 h45] at h; exact Bool.noConfusion h

theorem dropEndWhile_cons (p : Char → Bool) (a : Char) (l : List Char) :
    dropEndWhile p (a :: l) =
      if dropEndWhile p l = [] && p a then [] else a :: dropEndWhile p l := rfl

theorem mem_of_dropWhile {p : Char → Bool} {x : Char} :
    ∀ {l : List Char}, x ∈ l.dropWhile p → x ∈ l := by
  intro l
  induction l with
  | nil => intro h; simp [List.dropWhile] at h
  | cons a as ih =>
    intro h
    by_cases hp : p a = true
    · rw [List.dropWhile_cons, if_pos hp] at h
      exact List.mem_cons_of_mem _ (ih h)
    · rw [List.dropWhile_cons, if_neg hp] at h
      exact h

theorem mem_of_dropEnd {p : Char → Bool} {x : Char} :
    ∀ {l : List Char}, x ∈ dropEndWhile p l → x ∈ l := by
  intro l
  induction l with
  | nil => intro h; exact h
  | cons a as ih =>
    intro h
    simp only [dropEndWhile] at h
    split at h
    · exact absurd h (List.not_mem_nil x)
    · rcases List.mem_cons.mp h with h1 | h2
      · exact h1 ▸ List.mem_cons_self a as
      · exact List.mem_cons_of_mem _ (ih h2)

theorem head_dropWhile_not {p : Char → Bool} :
    ∀ {l : List Char} {c : Char}, (l.dropWhile p).head? = some c → p c = false := by
  intro l
  induction l with
  | nil => intro c h; simp [List.dropWhile] at h
  | cons a as ih =>
    intro c h
    by_cases hp : p a = true
    · rw [List.dropWhile_cons, if_pos hp] at h
      exact ih h
    · rw [List.dropWhile_cons, if_neg hp] at h
      simp only [List.head?_cons, Option.some.injEq] at h
      rw [← h]
      exact Bool.eq_false_iff.mpr hp

theorem head_dropEnd_pres {p : Char → Bool} :
    ∀ {l : List Char} {c : Char}, (dropEndWhile p l).head? = some c → l.head? = some c := by
  intro l
  cases l with
  | nil => intro c h; exact h
  | cons a as =>
    intro c h
    simp only [dropEndWhile] at h
    split at h
    · simp at h
    · simp only [List.head?_cons, Option.some.injEq] at h ⊢
      exact h

theorem last_dropEnd_not {p : Char → Bool} :
    ∀ {l : List Char} {c : Char}, (dropEndWhile p l).getLast? = some c → p c = false := by
  intro l
  induction l with
  | nil => intro c h; simp [dropEndWhile] at h
  | cons a as ih =>
    intro c h
    simp only [dropEndWhile] at h
    split at h
    · simp at h
    · rename_i hcond
      cases he : dropEndWhile p as with
      | nil =>
        rw [he] at h hcond
        simp only [List.getLast?_singleton, Option.some.injEq] at h
        rw [← h, Bool.eq_false_iff]
        intro hpa
        exact hcond (by simp [hpa])
      | cons b bs =>
        rw [he] at h
        rw [List.getLast?_cons_cons] at h
        exact ih (he ▸ h)

theorem noDH_tail {a : Char} {l : List Char} (h : noDH (a :: l)) : noDH l := by
  cases l with
  | nil => trivial
  | cons b t => exact h.2

theorem noDH_cons_of {a : Char} {l : List Char} (h1 : noDH l)
    (h2 : a.toNat = 45 → ∀ c, l.head? = some c → c.toNat ≠ 45) : noDH (a :: l) := by
  cases l with
  | nil => trivial
  | cons b t =>
    refine ⟨fun hab => h2 hab.1 b rfl hab.2, h1⟩

theorem noDH_cons_elim {a : Char} {l : List Char} (h : noDH (a :: l))
    (ha : a.toNat = 45) : ∀ c, l.head? = some c → c.toNat ≠ 45 := by
  cases l with
  | nil => intro c hc; simp at hc
  | cons b t =>
    intro c hc
    simp only [List.head?_cons, Option.some.injEq] at hc
    rw [← hc]
    intro hb
    exact h.1 ⟨ha, hb⟩

theorem noDH_dropWhile {p : Char → Bool} :
    ∀ {l : List Char}, noDH l → noDH (l.dropWhile p) := by
  intro l
  induction l with
  | nil => intro h; exact h
  | cons a as ih =>
    intro h
    by_cases hp : p a = true
    · rw [List.dropWhile_cons, if_pos hp]
      exact ih (noDH_tail h)
    · rw [List.dropWhile_cons, if_neg hp]
      exact h

theorem noDH_dropEnd {p : Char → Bool} :
    ∀ {l : List Char}, noDH l → noDH (dropEndWhile p l) := by
  intro l
  induction l with
  | nil => intro h; exact h
  | cons a as ih =>
    intro h
    simp only [dropEndWhile]
    split
    · trivial
    · refine noDH_cons_of (ih (noDH_tail h)) fun ha c hc => ?_
      have hhead : as.head? = some c := head_dropEnd_pres hc
      cases as with
      | nil => simp at hhead
      | cons b t =>
        simp only [List.head?_cons, Option.some.injEq] at hhead
        rw [← hhead]
        intro hb
        exact h.1 ⟨ha, hb⟩

theorem collapse_true_head :
    ∀ (l : List Char) {c : Char}, (collapseAux true l).head? = some c → c.toNat ≠ 45 := by
  intro l
  induction l with
  | nil => intro c h; simp [collapseAux] at h
  | cons a as ih =>
    intro c h
    by_cases hs : isSep a = true
    · rw [show collapseAux true (a :: as) = collapseAux true as by
        simp [collapseAux, hs]] at h
      exact ih h
    · rw [show collapseAux true (a :: as) = a :: collapseAux false as by
        simp [collapseAux, hs]] at h
      simp only [List.head?_cons, Option.some.injEq] at h
      rw [← h]
      exact notSep_notHy (Bool.eq_false_iff.mpr hs)

theorem collapse_good :
    ∀ (l : List Char) (b : Bool),
      (∀ c ∈ l, isLowerAlnum c = true ∨ isSep c = true) →
      (∀ c ∈ collapseAux b l, slugChar c = true) ∧ noDH (collapseAux b l) := by
  intro l
  induction l with
  | nil =>
    intro b _
    constructor
    · intro c hc; simp [collapseAux] at hc
    · simp only [collapseAux]; trivial
  | cons a as ih =>
    intro b h
    have ha := h a (List.mem_cons_self a as)
    have has : ∀ c ∈ as, isLowerAlnum c = true ∨ isSep c = true :=
      fun c hc => h c (List.mem_cons_of_mem _ hc)
    by_cases hs : isSep a = true
    · cases b with
      | true =>
        rw [show collapseAux true (a :: as) = collapseAux true as by
          simp [collapseAux, hs]]
        exact ih true has
      | false =>
        rw [show collapseAux false (a :: as) = '-' :: collapseAux true as by
          simp [collapseAux, hs]]
        obtain ⟨ih1, ih2⟩ := ih true has
        constructor
        · intro c hc
          rcases List.mem_cons.mp hc with h1 | h2
          · rw [h1]; decide
          · exact ih1 c h2
        · exact noDH_cons_of ih2 fun _ c hc => collapse_true_head as hc
    · have hla : isLowerAlnum a = true := by
        rcases ha with h1 | h2
        · exact h1
        · exact absurd h2 hs
      rw [show collapseAux b (a :: as) = a :: collapseAux false as by
        cases b <;> simp [collapseAux, hs]]
      obtain ⟨ih1, ih2⟩ := ih false has
      constructor
      · intro c hc
        rcases List.mem_cons.mp hc with h1 | h2
        · rw [h1]; simp [slugChar, hla]
        · exact ih1 c h2
      · exact noDH_cons_of ih2 fun ha45 c hc =>
          absurd ha45 (notSep_notHy (Bool.eq_false_iff.mpr hs))

theorem pipeline_good (cs : List Char) : goodSlug (slugPipeline cs) := by
  have hA : ∀ c ∈ jsTrim (cs.map jsToLower), ¬(65 ≤ c.toNat ∧ c.toNat ≤ 90) := by
    intro c hc
    have h1 : c ∈ cs.map jsToLower :=
      mem_of_dropWhile (mem_of_dropEnd hc)
    obtain ⟨a, _, hae⟩ := List.mem_map.mp h1
    rw [← hae]
    exact toLower_not_upper a
  have hB : ∀ c ∈ removeSpecial (jsTrim (cs.map jsToLower)),
      isLowerAlnum c = true ∨ isSep c = true := by
    intro c hc
    obtain ⟨hmem, hkeep⟩ := List.mem_filter.mp hc
    exact keep_notUpper_cases hkeep (hA c hmem)
  obtain ⟨hC1, hC2⟩ := collapse_good _ false hB
  refine ⟨?_, ?_, ?_, ?_⟩
  · intro c hc
    exact hC1 c (mem_of_dropWhile (mem_of_dropEnd hc))
  · exact noDH_dropEnd (noDH_dropWhile hC2)
  · intro c hc
    have := head_dropWhile_not (head_dropEnd_pres hc)
    simpa [isHy] using this
  · intro c hc
    have := last_dropEnd_not hc
    simpa [isHy] using this

theorem map_toLower_id {l : List Char} (h : ∀ c ∈ l, slugChar c = true) :
    l.map jsToLower = l := by
  induction l with
  | nil => rfl
  | cons a as ih =>
    rw [List.map_cons, slug_toLower_id (h a (List.mem_cons_self a as)),
      ih fun c hc => h c (List.mem_cons_of_mem _ hc)]

theorem dropWhile_id_all {p : Char → Bool} {l : List Char}
    (h : ∀ c ∈ l, p c = false) : l.dropWhile p = l := by
  cases l with
  | nil => rfl
  | cons a as =>
    rw [List.dropWhile_cons, if_neg]
    rw [h a (List.mem_cons_self a as)]
    exact Bool.false_ne_true

theorem dropEnd_id_all {p : Char → Bool} :
    ∀ {l : List Char}, (∀ c ∈ l, p c = false) → dropEndWhile p l = l := by
  intro l
  induction l with
  | nil => intro _; rfl
  | cons a as ih =>
    intro h
    have hr : dropEndWhile p as = as := ih fun c hc => h c (List.mem_cons_of_mem _ hc)
    simp only [dropEndWhile, hr]
    cases as with
    | nil =>
      rw [if_neg]
      simp [h a (List.mem_cons_self a [])]
    | cons b bs =>
      rw [if_neg]
      simp

theorem dropWhile_id_head {p : Char → Bool} {l : List Char}
    (h : ∀ c, l.head? = some c → p c = false) : l.dropWhile p = l := by
  cases l with
  | nil => rfl
  | cons a as =>
    rw [List.dropWhile_cons, if_neg]
    rw [h a rfl]
    exact Bool.false_ne_true

theorem dropEnd_id_last {p : Char → Bool} :
    ∀ {l : List Char}, (∀ c, l.getLast? = some c → p c = false) →
      dropEndWhile p l = l := by
  intro l
  induction l with
  | nil => intro _; rfl
  | cons a as ih =>
    intro h
    cases as with
    | nil =>
      have hpa : p a = false := h a (by simp)
      rw [dropEndWhile_cons, if_neg (by simp [dropEndWhile, hpa])]
      rfl
    | cons b bs =>
      have hr : dropEndWhile p (b :: bs) = b :: bs :=
        ih fun c hc => h c (by rw [List.getLast?_cons_cons]; exact hc)
      rw [dropEndWhile_cons, hr, if_neg (by simp)]

theorem filter_keep_id {l : List Char} (h : ∀ c ∈ l, slugChar c = true) :
    removeSpecial l = l := by
  unfold removeSpecial
  induction l with
  | nil => rfl
  | cons a as ih =>
    rw [List.filter_cons, if_pos (slug_keep (h a (List.mem_cons_self a as))),
      ih fun c hc => h c (List.mem_cons_of_mem _ hc)]

theorem collapse_id :
    ∀ (l : List Char), (∀ c ∈ l, slugChar c = true) → noDH l →
      collapseAux false l = l ∧
        ((∀ c, l.head? = some c → c.toNat ≠ 45) → collapseAux true l = l) := by
  intro l
  induction l with
  | nil => intro _ _; exact ⟨rfl, fun _ => rfl⟩
  | cons a as ih =>
    intro h hn
    have ha := h a (List.mem_cons_self a as)
    have has : ∀ c ∈ as, slugChar c = true :=
      fun c hc => h c (List.mem_cons_of_mem _ hc)
    obtain ⟨ihf, iht⟩ := ih has (noDH_tail hn)
    by_cases h45 : a.toNat = 45
    · have haEq : a = '-' := char_eq_of_toNat h45
      have hsep : isSep a = true := sep_of_45 h45
      have htrue : collapseAux true as = as :=
        iht (noDH_cons_elim hn h45)
      constructor
      · rw [show collapseAux false (a :: as) = '-' :: collapseAux true as by
          simp [collapseAux, hsep]]
        rw [htrue, ← haEq]
      · intro hh
        exact absurd h45 (hh a rfl)
    · have hla : isLowerAlnum a = true := by
        have := ha
        simp only [slugChar, Bool.or_eq_true, beq_iff_eq] at this
        rcases this with h1 | h2
        · exact h1
        · exact absurd h2 h45
      have hsep : isSep a = false := lower_not_sep hla
      constructor
      · rw [show collapseAux false (a :: as) = a :: collapseAux false as by
          simp [collapseAux, hsep]]
        rw [ihf]
      · intro _
        rw [show collapseAux true (a :: as) = a :: collapseAux false as by
          simp [collapseAux, hsep]]
        rw [ihf]

theorem slug_fixed {l : List Char} (g : goodSlug l) : slugPipeline l = l := by
  obtain ⟨g1, g2, g3, g4⟩ := g
  unfold slugPipeline
  rw [map_toLower_id g1]
  rw [show jsTrim l = l from by
    unfold jsTrim
    rw [dropWhile_id_all fun c hc => slug_not_ws (g1 c hc)]
    exact dropEnd_id_all fun c hc => slug_not_ws (g1 c hc)]
  rw [filter_keep_id g1]
  rw [show collapseSeps l = l from (collapse_id l g1 g2).1]
  unfold stripHy
  rw [dropWhile_id_head fun c hc => by
    simp only [isHy, beq_eq_false_iff_ne, ne_eq]
    exact g3 c hc]
  exact dropEnd_id_last fun c hc => by
    simp only [isHy, beq_eq_false_iff_ne, ne_eq]
    exact g4 c hc

/-! ### Claims -/

/-- Claim C1, counterexample.  The claim states that a quoted raw value
is unwrapped to a plain string with no further coercion, so that the
quoted value true stays the string true.  In the code the quote
unwrapping (lines 275-279) happens before the boolean and number tests
(lines 283-286), which therefore run on the unwrapped text: the line
with the quoted value true produces the boolean true, not a string. -/
theorem frontmatter_quoted_true_is_bool :
    _parseFrontmatter "flag: \"true\"" = [("flag", FMValue.boolV true)] := by decide

set_option maxRecDepth 8192 in
/-- Claim C1, amended: a quoted raw value is unwrapped and the unwrapped
text then goes through the same boolean and number coercion as an
unquoted value; quoted false gives a boolean, quoted 42 gives the
number 42, and only a quoted value that is neither a boolean literal
nor numeric stays a plain string. -/
theorem frontmatter_quoted_values_coerced :
    _parseFrontmatter "a: \"false\"\nb: \"42\"\nc: \"hello\"" =
      [("a", FMValue.boolV false), ("b", FMValue.num (JSNum.finite 42)),
       ("c", FMValue.str "hello")] := by decide

/-- Claim C2, counterexample.  The claim states that a non-finite form
such as the raw value Infinity is kept as the raw string.  The code
coerces with the test on line 285, which accepts Infinity through both
`isNaN` and `parseFloat`, so the stored value is the number Infinity,
not a string. -/
theorem frontmatter_infinity_coerced_to_number :
    _parseFrontmatter "n: Infinity" = [("n", FMValue.num JSNum.inf)] := by decide

set_option maxRecDepth 8192 in
/-- Claim C2, amended: an unquoted, non-bracketed raw value other than
the boolean literals is coerced exactly when the whole value is a valid
JS numeric literal (`!isNaN(value)`) and has a parseable decimal prefix
(`!isNaN(parseFloat(value))`), and the stored number is the
`parseFloat` result: the hexadecimal 0x10 passes both tests and is
stored as the decimal-prefix parse 0, 1e2 is stored as 100, while
leading or trailing non-numeric characters still disqualify a value and
keep it a trimmed raw string. -/
theorem frontmatter_numeric_coercion_uses_parseFloat :
    _parseFrontmatter "h: 0x10\np: 42px\nq: px42\nr: 3.5\ns: 1e2" =
      [("h", FMValue.num (JSNum.finite 0)), ("p", FMValue.str "42px"),
       ("q", FMValue.str "px42"), ("r", FMValue.num (JSNum.finite (mkRat 7 2))),
       ("s", FMValue.num (JSNum.finite 100))] := by decide

/-- Claim C3, counterexample.  The claim states that a document whose
opening fence line is immediately followed by the closing fence line
(zero interior lines) is recognised as an empty block, and that a
second fence with trailing characters on its line is not recognised.
The pattern on line 12 requires a newline after the opening fence and
another newline before the closing fence, so the zero-interior-line
document does not match; and nothing after the closing fence is
anchored, so trailing characters do not prevent a match. -/
theorem frontmatter_block_edge_cases :
    fmMatchS "---\n---\n" = none ∧
    fmMatchS "---\nk: v\n---!" = some ("k: v", "!") := by decide

/-- Claim C3, amended: a block is recognised exactly when the document
begins with a fence line, a newline, a (possibly empty) captured body,
a newline and three hyphens; the closing three hyphens need not end
their line (trailing characters stay at the head of the remainder), a
document with zero interior lines is NOT recognised because the two
required newlines are missing, and after the closing hyphens an
optional carriage return and an optional newline are consumed. -/
theorem frontmatter_recognition_amended :
    fmMatchS "---\ntitle: x\n---\nbody" = some ("title: x", "body") ∧
    fmMatchS "---\n\n---" = some ("", "") ∧
    fmMatchS "---\n---" = none ∧
    fmMatchS "---\na: b\n--- tail" = some ("a: b", " tail") ∧
    fmMatchS "x---\na\n---" = none := by decide

/-- Claim C4, counterexample.  The claim states that an input whose
first line is only a hash with the heading text on the next line is not
rewritten.  The whitespace class in `#{1,6}\s+(.+)` matches newlines,
so the pattern matches across the line break and the input IS rewritten
into a heading. -/
theorem heading_matches_across_newline :
    _parseHeadings "#\nHeading text" = "<h1>Heading text</h1>" := by decide

/-- Claim C4, amended: the headings pass rewrites, at each line start,
1 to 6 hash characters followed by at least one whitespace character
and then at least one further non-newline character, producing the
numbered heading tag around the trimmed content; the whitespace may
include newlines, so matching is NOT strictly per physical line: a hash
alone on a line followed by text on the next line is rewritten with the
next line as its content, while a hash with no following whitespace, a
seven-hash line, and a hash sequence away from a line start are left
alone. -/
theorem heading_rewrite_amended :
    _parseHeadings "# Hello" = "<h1>Hello</h1>" ∧
    _parseHeadings "###### six" = "<h6>six</h6>" ∧
    _parseHeadings "####### seven" = "####### seven" ∧
    _parseHeadings "#foo" = "#foo" ∧
    _parseHeadings "#\nfoo" = "<h1>foo</h1>" ∧
    _parseHeadings "# a\n## b" = "<h1>a</h1>\n<h2>b</h2>" ∧
    _parseHeadings "x # mid" = "x # mid" := by decide

set_option maxRecDepth 8192 in
/-- Claim C5: because the heading pass precedes the bold pass and the
paragraph wrapper leaves blocks delimited by angle brackets unwrapped,
parsing a bold span inside a heading yields the strong tag nested
inside the heading tag, with no paragraph wrapper around it. -/
theorem parse_bold_heading_nesting :
    parse "# **Bold** heading" = "<h1><strong>Bold</strong> heading</h1>" := by decide

/-- Claim C6: a fenced block body is trimmed and HTML-escaped (a script
tag comes out as entities inside the pre and code tags), the class
attribute appears exactly with a language tag after the opening fence,
and inline code between single backticks is emitted unescaped. -/
theorem code_escaping_asymmetry :
    _parseCodeBlocks "```\n<script>\n```" = "<pre><code>&lt;script&gt;</code></pre>" ∧
    _parseCodeBlocks "```js\nx<y\n```" =
      "<pre><code class=\"language-js\">x&lt;y</code></pre>" ∧
    _parseInlineCode "`<script>`" = "<code><script></code>" := by decide

/-- Claim C7: for every non-string input (null, undefined, numbers,
booleans), `parseDocument` returns the empty document and `parse`
returns the empty string; both embedded operations are total functions,
so no input signals a failure. -/
theorem fallback_totality (v : JSValue) (h : v.isString = false) :
    parseDocumentJS v = ⟨[], "", ""⟩ ∧ parseJS v = "" := by
  cases v with
  | str s => simp [JSValue.isString] at h
  | nullV => exact ⟨rfl, rfl⟩
  | undefV => exact ⟨rfl, rfl⟩
  | numV q => exact ⟨rfl, rfl⟩
  | boolV b => exact ⟨rfl, rfl⟩

/-- Witness for the fallback totality claim at the input null. -/
theorem fallback_totality_witness :
    JSValue.isString JSValue.nullV = false ∧
    (parseDocumentJS JSValue.nullV = ⟨[], "", ""⟩ ∧ parseJS JSValue.nullV = "") :=
  ⟨rfl, fallback_totality JSValue.nullV rfl⟩

/-- Claim C8: the slug pipeline lowercases, trims, removes characters
other than word characters, whitespace and hyphens, collapses separator
runs into single hyphens and strips boundary hyphens, as witnessed on
the two specified inputs. -/
theorem createSlug_examples :
    createSlug "Hello, World! 2025" = "hello-world-2025" ∧
    createSlug "  --multiple---hyphens--  " = "multiple-hyphens" := by decide

/-- Claim C9: for every string input, the content field of the parsed
document is exactly `parse` applied to its rawContent field: the
rendered HTML is the pipeline applied to the returned remainder. -/
theorem content_eq_parse_rawContent (s : String) :
    (parseDocumentJS (.str s)).content = parse (parseDocumentJS (.str s)).rawContent := by
  by_cases h : s = ""
  · subst h; simp [parseDocumentJS, parse]
  · rcases hm : frontmatterMatch s.data with _ | ⟨cap, rest⟩ <;>
      simp [parseDocumentJS, if_neg h, parseDocumentStr, hm]

/-- Claim C10: `createSlug` is idempotent on every string, because its
output consists only of lowercase letters, digits and single interior
hyphens with no boundary hyphens or whitespace, a shape every stage of
the slug pipeline leaves fixed. -/
theorem createSlug_idempotent (s : String) :
    createSlug (createSlug s) = createSlug s := by
  by_cases h : s = ""
  · subst h; rfl
  · have h1 : createSlug s = ⟨slugPipeline s.data⟩ := by
      simp only [createSlug, if_neg h]
    rw [h1]
    by_cases h2 : (⟨slugPipeline s.data⟩ : String) = ""
    · rw [h2]; rfl
    · simp only [createSlug, if_neg h2]
      exact congrArg String.mk (slug_fixed (pipeline_good s.data))

end Demark
